import Mathlib

set_option maxRecDepth 100000

/-!
Verification development for the skill-manager service: a shallow embedding
of the versioning engine (skill.service.ts), its validation module
(validation.ts), the D1-backed repository (skill.repo.ts), the session
store (session.service.ts), and the ZIP import pipeline (zip-parser,
upload-validation, file-type, upload.service), together with theorems
about the behaviour of these operations.

Modelling conventions:
- JavaScript strings are modelled as Lean String; the JS `.length`
  (UTF-16 code units) is modelled as codepoint count, and the byte
  length computed by TextEncoder is modelled as String.utf8ByteSize.
- Date.now() is threaded through as an explicit `now : Nat` argument.
- crypto.randomUUID is modelled as a counter-driven fresh-id generator.
- D1 tables are in-memory lists kept in insertion order; a SELECT with
  .first is List.find?, an INSERT appends, an UPDATE maps over the list.
- Stateful service operations take the database value and return the
  result together with the (possibly unchanged) database, so that frame
  properties are expressible; a thrown AppError is an Except.error paired
  with the state as it stands at the throw site.
-/

namespace SkillMgr

/-! ## String primitives

The JS string operations used by the source are modelled over character
lists so that every definition evaluates by kernel reduction. jsTrim,
jsSplitOn (single-character separator, the only form the source uses),
jsToLower (ASCII case folding, which is also the collation SQLite LIKE
uses) and jsStartsWith mirror String.prototype.trim / split /
toLowerCase / startsWith; isInfixB mirrors String.prototype.includes;
sortBy is a stable insertion sort standing in for ORDER BY. -/

/-- JS String.prototype.trim. -/
def jsTrim (s : String) : String :=
  String.mk (((s.toList.dropWhile Char.isWhitespace).reverse.dropWhile
    Char.isWhitespace).reverse)

/-- Split a character list at every occurrence of the separator. -/
def splitChars (sep : Char) : List Char → List (List Char)
  | [] => [[]]
  | c :: cs =>
    let rest := splitChars sep cs
    if c = sep then [] :: rest
    else
      match rest with
      | r :: rs => (c :: r) :: rs
      | [] => [[c]]

/-- JS String.prototype.split with a one-character separator. -/
def jsSplitOn (sep : Char) (s : String) : List String :=
  (splitChars sep s.toList).map String.mk

/-- JS String.prototype.toLowerCase restricted to ASCII. -/
def jsToLower (s : String) : String :=
  String.mk (s.toList.map Char.toLower)

/-- JS String.prototype.startsWith. -/
def jsStartsWith (s pre : String) : Bool :=
  pre.toList.isPrefixOf s.toList

/-- Contiguous-substring test over character lists. -/
def isInfixB (needle : List Char) : List Char → Bool
  | [] => needle.isEmpty
  | c :: cs => needle.isPrefixOf (c :: cs) || isInfixB needle cs

/-- Insert an element into a sorted list, before the first entry that is
not strictly smaller (keeping the sort stable). -/
def insertBy {α : Type} (lt : α → α → Bool) (x : α) : List α → List α
  | [] => [x]
  | y :: ys => if lt y x then y :: insertBy lt x ys else x :: y :: ys

/-- Stable insertion sort by a strict comparison. -/
def sortBy {α : Type} (lt : α → α → Bool) : List α → List α
  | [] => []
  | x :: xs => insertBy lt x (sortBy lt xs)

/-- Strict lexicographic order on character lists by codepoint, which for
UTF-8 agrees with the byte order SQLite uses for ORDER BY on text. -/
def lexLt : List Char → List Char → Bool
  | [], [] => false
  | [], _ :: _ => true
  | _ :: _, [] => false
  | a :: as, b :: bs =>
    if a.toNat < b.toNat then true
    else if b.toNat < a.toNat then false
    else lexLt as bs

/-! ## Shared data types (src/shared/types.ts) -/

/-- FileInput from shared/types.ts: one file supplied to createSkill. -/
structure FileInput where
  path : String
  content : String
  is_executable : Option Bool := none
  script_language : Option String := none
  run_instructions_for_ai : Option String := none
deriving Repr, DecidableEq

/-- The closed sum of file-change kinds used by updateSkill. -/
inductive ChangeType where
  | add
  | update
  | delete
deriving Repr, DecidableEq

/-- String rendering of a change type, used in validation messages. -/
def ChangeType.str : ChangeType → String
  | .add => "add"
  | .update => "update"
  | .delete => "delete"

/-- FileChange from shared/types.ts: one add/update/delete request. -/
structure FileChange where
  type : ChangeType
  path : String
  content : Option String := none
  is_executable : Option Bool := none
  script_language : Option String := none
  run_instructions_for_ai : Option String := none
deriving Repr, DecidableEq

/-- CreateSkillInput from shared/types.ts. -/
structure CreateSkillInput where
  name : String
  description : Option String := none
  files : List FileInput
  changelog : Option String := none
deriving Repr, DecidableEq

/-- UpdateSkillInput from shared/types.ts; skill_id may hold an id or a name. -/
structure UpdateSkillInput where
  skill_id : String
  description : Option String := none
  file_changes : Option (List FileChange) := none
  changelog : Option String := none
deriving Repr, DecidableEq

/-! ## Validation module (src/worker/lib/validation.ts) -/

/-- CONSTRAINTS.SKILL_NAME_MAX. -/
def SKILL_NAME_MAX : Nat := 100

/-- CONSTRAINTS.DESCRIPTION_MAX, as written in validation.ts. -/
def DESCRIPTION_MAX : Nat := 1000

/-- CONSTRAINTS.FILE_PATH_MAX. -/
def FILE_PATH_MAX : Nat := 255

/-- CONSTRAINTS.FILE_CONTENT_MAX: 200KB. -/
def FILE_CONTENT_MAX : Nat := 200 * 1024

/-- CONSTRAINTS.FILES_PER_VERSION_MAX. -/
def FILES_PER_VERSION_MAX : Nat := 50

/-- CONSTRAINTS.CHANGELOG_MAX. -/
def CHANGELOG_MAX : Nat := 2000

/-- ValidationResult from validation.ts. -/
structure ValidationResult where
  valid : Bool
  errors : List String
deriving Repr, DecidableEq

/-- The final `errors.length > 0 ? failure(errors) : success()` step. -/
def vrOf (errors : List String) : ValidationResult :=
  if errors.length > 0 then ⟨false, errors⟩ else ⟨true, []⟩

/-- Wrap a string in double quotes, as the template literals in the
validation messages do. -/
def quoted (s : String) : String := "\"" ++ s ++ "\""

/-- validateFile from validation.ts. The TS type makes `content` a
mandatory string, so the undefined/null branch of the source cannot fire
and only the byte-size check is modelled for content. -/
def validateFile (file : FileInput) : ValidationResult :=
  let pathErrors :=
    if file.path = "" then ["File path is required"]
    else if file.path.length > FILE_PATH_MAX then
      ["File path exceeds 255 characters"]
    else []
  let contentErrors :=
    if file.content.utf8ByteSize > FILE_CONTENT_MAX then
      ["File content exceeds 200KB"]
    else []
  vrOf (pathErrors ++ contentErrors)

/-- validateFileChange from validation.ts. -/
def validateFileChange (change : FileChange) : ValidationResult :=
  let pathErrors :=
    if change.path = "" then ["File path is required"]
    else if change.path.length > FILE_PATH_MAX then
      ["File path exceeds 255 characters"]
    else []
  let contentErrors :=
    if change.type = ChangeType.add ∨ change.type = ChangeType.update then
      match change.content with
      | none => ["File content is required for " ++ change.type.str ++ " operation"]
      | some c =>
          if c.utf8ByteSize > FILE_CONTENT_MAX then ["File content exceeds 200KB"]
          else []
    else []
  vrOf (pathErrors ++ contentErrors)

/-- validateCreateSkill from validation.ts, with error strings produced in
the same order as the source pushes them. -/
def validateCreateSkill (input : CreateSkillInput) : ValidationResult :=
  let nameErrors :=
    if jsTrim input.name = "" then ["Skill name is required"]
    else if input.name.length > SKILL_NAME_MAX then
      ["Skill name exceeds 100 characters"]
    else []
  let descErrors :=
    match input.description with
    | some d => if d ≠ "" ∧ d.length > DESCRIPTION_MAX then
        ["Description exceeds 1000 characters"] else []
    | none => []
  let clErrors :=
    match input.changelog with
    | some c => if c ≠ "" ∧ c.length > CHANGELOG_MAX then
        ["Changelog exceeds 2000 characters"] else []
    | none => []
  let countErrors :=
    if input.files.length = 0 then ["At least one file is required"]
    else if input.files.length > FILES_PER_VERSION_MAX then
      ["Number of files exceeds 50"]
    else []
  let perFileErrors :=
    input.files.flatMap (fun f =>
      (validateFile f).errors.map (fun e => "File " ++ quoted f.path ++ ": " ++ e))
  let dupErrors :=
    if (input.files.map (fun f => f.path)).Nodup then []
    else ["Duplicate file paths are not allowed"]
  vrOf (nameErrors ++ descErrors ++ clErrors ++ countErrors ++ perFileErrors ++ dupErrors)

/-- Accumulator of the per-change loop of validateUpdateSkill: the set of
paths seen so far, the add and delete counters, and the error strings. -/
structure ChangeScan where
  seen : List String
  addCount : Nat
  deleteCount : Nat
  errors : List String
deriving Repr, DecidableEq

/-- The body of the for-loop over file_changes in validateUpdateSkill. -/
def scanChangeStep (acc : ChangeScan) (change : FileChange) : ChangeScan :=
  let dupErrors :=
    if acc.seen.contains change.path then
      ["Duplicate file change path: " ++ change.path]
    else []
  let seen := acc.seen ++ [change.path]
  let addC := if change.type = ChangeType.add then 1 else 0
  let delC := if change.type = ChangeType.delete then 1 else 0
  let changeErrors :=
    (validateFileChange change).errors.map
      (fun e => "File " ++ quoted change.path ++ ": " ++ e)
  { seen := seen
    addCount := acc.addCount + addC
    deleteCount := acc.deleteCount + delC
    errors := acc.errors ++ dupErrors ++ changeErrors }

/-- The whole file_changes loop of validateUpdateSkill. -/
def scanChanges (changes : List FileChange) : ChangeScan :=
  changes.foldl scanChangeStep ⟨[], 0, 0, []⟩

/-- validateUpdateSkill from validation.ts; currentFileCount is the number
of files in the latest version, and the resulting count is computed over
the integers as in the source. -/
def validateUpdateSkill (input : UpdateSkillInput) (currentFileCount : Nat) :
    ValidationResult :=
  let idErrors := if jsTrim input.skill_id = "" then ["Skill ID is required"] else []
  let descErrors :=
    match input.description with
    | some d => if d ≠ "" ∧ d.length > DESCRIPTION_MAX then
        ["Description exceeds 1000 characters"] else []
    | none => []
  let clErrors :=
    match input.changelog with
    | some c => if c ≠ "" ∧ c.length > CHANGELOG_MAX then
        ["Changelog exceeds 2000 characters"] else []
    | none => []
  let changeErrors :=
    match input.file_changes with
    | some changes =>
        if changes.length > 0 then
          let scan := scanChanges changes
          let resulting : Int :=
            (currentFileCount : Int) + (scan.addCount : Int) - (scan.deleteCount : Int)
          scan.errors ++
            (if resulting > (FILES_PER_VERSION_MAX : Int) then
              ["Resulting number of files (" ++ toString resulting ++ ") exceeds 50"]
            else [])
        else []
    | none => []
  vrOf (idErrors ++ descErrors ++ clErrors ++ changeErrors)

/-! ## Error taxonomy (src/worker/lib/errors.ts) -/

/-- ErrorCode from shared/types.ts. -/
inductive ErrorCode where
  | NOT_FOUND
  | VALIDATION_ERROR
  | DB_ERROR
  | UNAUTHORIZED
  | CONFLICT
deriving Repr, DecidableEq

/-- AppError from errors.ts: code, message and HTTP status. -/
structure AppError where
  code : ErrorCode
  message : String
  status : Nat
deriving Repr, DecidableEq

/-- notFound from errors.ts. -/
def notFound (resource : String) : AppError :=
  ⟨ErrorCode.NOT_FOUND, resource ++ " not found", 404⟩

/-- conflict from errors.ts. -/
def conflict (message : String) : AppError :=
  ⟨ErrorCode.CONFLICT, message, 409⟩

/-- validationError from errors.ts. -/
def validationError (message : String) : AppError :=
  ⟨ErrorCode.VALIDATION_ERROR, message, 400⟩

/-! ## Persistent entities and database state (migrations + skill.repo.ts) -/

/-- A row of the skills table. -/
structure Skill where
  id : String
  name : String
  description : Option String
  active : Bool
  created_at : Nat
  updated_at : Nat
deriving Repr, DecidableEq

/-- A row of the skill_versions table. -/
structure SkillVersion where
  id : String
  skill_id : String
  version_number : Nat
  changelog : Option String
  created_at : Nat
  created_by : String
deriving Repr, DecidableEq

/-- A row of the skill_files table. -/
structure SkillFile where
  id : String
  skill_id : String
  version_id : String
  path : String
  content : String
  is_executable : Bool
  script_language : Option String
  run_instructions_for_ai : Option String
  created_at : Nat
deriving Repr, DecidableEq

/-- The three D1 tables backing the versioning engine, plus the counter
that models crypto.randomUUID by handing out distinct fresh ids. -/
structure DB where
  skills : List Skill := []
  versions : List SkillVersion := []
  files : List SkillFile := []
  nextId : Nat := 0
deriving Repr, DecidableEq

/-- Fresh-id generator standing in for crypto.randomUUID. -/
def genId (n : Nat) : String := "uuid-" ++ toString n

/-- findSkillById from skill.repo.ts: SELECT * FROM skills WHERE id = ?. -/
def findSkillById (db : DB) (i : String) : Option Skill :=
  db.skills.find? (fun s => s.id == i)

/-- findSkillByName from skill.repo.ts: SELECT * FROM skills WHERE name = ?. -/
def findSkillByName (db : DB) (n : String) : Option Skill :=
  db.skills.find? (fun s => s.name == n)

/-- repo.createSkill: INSERT the new row built from the fields and a fresh id. -/
def repoCreateSkill (db : DB) (name : String) (description : Option String)
    (active : Bool) (created_at updated_at : Nat) : Skill × DB :=
  let skill : Skill := ⟨genId db.nextId, name, description, active, created_at, updated_at⟩
  (skill, { db with skills := db.skills ++ [skill], nextId := db.nextId + 1 })

/-- The partial field set accepted by repo.updateSkill; the outer Option
marks a field as present in the patch, and for description the inner
Option is the nullable column value. -/
structure SkillPatch where
  name : Option String := none
  description : Option (Option String) := none
  active : Option Bool := none
  updated_at : Option Nat := none
deriving Repr, DecidableEq

/-- Apply a patch to one skills row, as the generated UPDATE does. -/
def applyPatch (s : Skill) (p : SkillPatch) : Skill :=
  { s with
    name := p.name.getD s.name
    description := match p.description with
      | some d => d
      | none => s.description
    active := p.active.getD s.active
    updated_at := p.updated_at.getD s.updated_at }

/-- repo.updateSkill: UPDATE skills SET ... WHERE id = ?, then re-read the
row with findSkillById. -/
def repoUpdateSkill (db : DB) (i : String) (p : SkillPatch) : Option Skill × DB :=
  let db' : DB :=
    { db with skills := db.skills.map (fun s => if s.id == i then applyPatch s p else s) }
  (findSkillById db' i, db')

/-- repo.createVersion: INSERT a skill_versions row with a fresh id. -/
def repoCreateVersion (db : DB) (skill_id : String) (version_number : Nat)
    (changelog : Option String) (created_at : Nat) (created_by : String) :
    SkillVersion × DB :=
  let v : SkillVersion := ⟨genId db.nextId, skill_id, version_number, changelog, created_at, created_by⟩
  (v, { db with versions := db.versions ++ [v], nextId := db.nextId + 1 })

/-- repo.findVersion: SELECT by skill id and version number. -/
def findVersion (db : DB) (skillId : String) (versionNumber : Nat) : Option SkillVersion :=
  db.versions.find? (fun v => v.skill_id == skillId && v.version_number == versionNumber)

/-- repo.getLatestVersionNumber: SELECT MAX(version_number), with 0 when
the skill has no versions. -/
def getLatestVersionNumber (db : DB) (skillId : String) : Nat :=
  (db.versions.filter (fun v => v.skill_id == skillId)).foldl
    (fun m v => max m v.version_number) 0

/-- The field set of a skill_files row before a fresh id is assigned. -/
structure FileRow where
  skill_id : String
  version_id : String
  path : String
  content : String
  is_executable : Bool
  script_language : Option String
  run_instructions_for_ai : Option String
  created_at : Nat
deriving Repr, DecidableEq

/-- Attach a generated id to a pending file row. -/
def FileRow.withId (r : FileRow) (i : String) : SkillFile :=
  ⟨i, r.skill_id, r.version_id, r.path, r.content, r.is_executable,
    r.script_language, r.run_instructions_for_ai, r.created_at⟩

/-- The per-row step of repo.createFiles: generate an id, record the row,
append the INSERT to the batch. -/
def createFilesStep (acc : List SkillFile × DB) (r : FileRow) : List SkillFile × DB :=
  let f := r.withId (genId acc.2.nextId)
  (acc.1 ++ [f], { acc.2 with files := acc.2.files ++ [f], nextId := acc.2.nextId + 1 })

/-- repo.createFiles: one batched INSERT; ids are generated per row in
order, and the created rows are returned in input order. -/
def repoCreateFiles (db : DB) (rows : List FileRow) : List SkillFile × DB :=
  rows.foldl createFilesStep ([], db)

/-- repo.findFilesByVersionId: SELECT ... WHERE version_id = ? ORDER BY path. -/
def findFilesByVersionId (db : DB) (versionId : String) : List SkillFile :=
  sortBy (fun a b => lexLt a.path.toList b.path.toList)
    (db.files.filter (fun f => f.version_id == versionId))

/-- repo.findFile: SELECT ... WHERE version_id = ? AND path = ?. -/
def findFile (db : DB) (versionId : String) (path : String) : Option SkillFile :=
  db.files.find? (fun f => f.version_id == versionId && f.path == path)

/-! ## SKILL.md frontmatter parsing (skill.service.ts, parseSkillMetadata) -/

/-- The name/description pair extracted from YAML frontmatter. -/
structure SkillMetadata where
  name : Option String := none
  description : Option String := none
deriving Repr, DecidableEq

/-- Mutable state of the frontmatter for-loop in parseSkillMetadata. -/
structure FmState where
  name : String
  description : String
  inDescription : Bool
  isMultilineDescription : Bool
deriving Repr, DecidableEq

/-- The for-loop of parseSkillMetadata over the frontmatter lines, with
break modelled by returning the state without consuming further lines. -/
def fmLoop : FmState → List String → FmState
  | st, [] => st
  | st, line :: rest =>
    let trimmedLine := jsTrim line
    if jsStartsWith trimmedLine "name:" then
      fmLoop { st with name := jsTrim (trimmedLine.drop 5), inDescription := false } rest
    else if jsStartsWith trimmedLine "description:" then
      let descriptionValue := jsTrim (trimmedLine.drop 12)
      if descriptionValue = "|" then
        fmLoop { st with isMultilineDescription := true, inDescription := true } rest
      else if descriptionValue.length > 0 then
        { st with description := descriptionValue, inDescription := false }
      else
        fmLoop { st with inDescription := true } rest
    else if st.inDescription then
      if st.isMultilineDescription then
        if jsStartsWith line "  " ∨ jsStartsWith line "\t" then
          let cleanLine := String.mk (line.toList.dropWhile (fun c => c = ' ' ∨ c = '\t'))
          let d :=
            if st.description.length > 0 then st.description ++ "\n" ++ cleanLine
            else st.description ++ cleanLine
          fmLoop { st with description := d } rest
        else if trimmedLine.length = 0 then
          fmLoop { st with description := st.description ++ "\n" } rest
        else st
      else { st with description := trimmedLine }
    else fmLoop st rest

/-- parseSkillMetadata from skill.service.ts: extract name and description
from YAML frontmatter, description truncated to 1024 characters. -/
def parseSkillMetadata (content : String) : SkillMetadata :=
  if (jsTrim content).length = 0 then {}
  else
    let lines := jsSplitOn '\n' content
    match lines with
    | [] => {}
    | first :: _ =>
      if jsTrim first ≠ "---" then {}
      else
        match (lines.drop 1).findIdx? (fun l => jsTrim l = "---") with
        | none => {}
        | some j =>
          let frontmatterLines := (lines.drop 1).take j
          let st := fmLoop ⟨"", "", false, false⟩ frontmatterLines
          let md : SkillMetadata := if st.name.length > 0 then { name := some st.name } else {}
          let d := jsTrim st.description
          if d.length > 0 then
            { md with description := some (if d.length > 1024 then jsTrim (d.take 1024) else d) }
          else md

/-! ## JS Map model

The path-to-file Map built in updateSkill is modelled as an association
list in insertion order: Map.set on an existing key updates the value in
place, Map.set on a fresh key appends, Map.delete removes, and
Map.values() reads the entries in that order. -/

/-- Map.has. -/
def mapHas (m : List (String × SkillFile)) (k : String) : Bool :=
  m.any (fun e => e.1 == k)

/-- Map.set: update in place when the key exists, append otherwise. -/
def mapSet (m : List (String × SkillFile)) (k : String) (v : SkillFile) :
    List (String × SkillFile) :=
  if mapHas m k then m.map (fun e => if e.1 == k then (k, v) else e)
  else m ++ [(k, v)]

/-- Map.get. -/
def mapGet (m : List (String × SkillFile)) (k : String) : Option SkillFile :=
  (m.find? (fun e => e.1 == k)).map (fun e => e.2)

/-- Map.delete. -/
def mapDelete (m : List (String × SkillFile)) (k : String) :
    List (String × SkillFile) :=
  m.filter (fun e => e.1 != k)

/-- Map.values() as a list. -/
def mapValues (m : List (String × SkillFile)) : List SkillFile :=
  m.map (fun e => e.2)

/-- The keys of the map. -/
def mapKeys (m : List (String × SkillFile)) : List String :=
  m.map (fun e => e.1)

/-- The loop seeding the map with the current files: fileMap.set(file.path, file). -/
def mapFromFiles (files : List SkillFile) : List (String × SkillFile) :=
  files.foldl (fun m f => mapSet m f.path f) []

/-! ## Versioning engine (src/worker/services/skill.service.ts) -/

/-- A skill_files row with the content column projected away, as the
service returns file lists (the TS code destructures content out). -/
structure FileMeta where
  id : String
  skill_id : String
  version_id : String
  path : String
  is_executable : Bool
  script_language : Option String
  run_instructions_for_ai : Option String
  created_at : Nat
deriving Repr, DecidableEq

/-- Drop the content column of a file row. -/
def SkillFile.meta (f : SkillFile) : FileMeta :=
  ⟨f.id, f.skill_id, f.version_id, f.path, f.is_executable,
    f.script_language, f.run_instructions_for_ai, f.created_at⟩

/-- SkillDetail: the composite view returned by createSkill, updateSkill
and getSkill (skill fields plus version plus content-free file list). -/
structure SkillDetail where
  skill : Skill
  version : SkillVersion
  files : List FileMeta
deriving Repr, DecidableEq

/-- The description derivation of createSkill: keep a truthy explicit
description, otherwise fall back to the description parsed from the
SKILL.md frontmatter when one is present. -/
def createDescription (input : CreateSkillInput) : Option String :=
  let description0 : Option String := input.description
  let descTruthy : Bool := match description0 with
    | some d => d ≠ ""
    | none => false
  if descTruthy then description0
  else
    match input.files.find? (fun f => f.path == "SKILL.md") with
    | some f =>
        match (parseSkillMetadata f.content).description with
        | some d => some d
        | none => description0
    | none => description0

/-- createSkill from skill.service.ts: validate, reject duplicate names
with Conflict, derive a description from SKILL.md frontmatter when none
was supplied, then insert the skill row, a version numbered 1 and the
file rows. -/
def createSkill (input : CreateSkillInput) (db : DB) (now : Nat) :
    Except AppError SkillDetail × DB :=
  let validation := validateCreateSkill input
  if validation.valid = false then
    (Except.error (validationError (String.intercalate "; " validation.errors)), db)
  else
    match findSkillByName db input.name with
    | some _ =>
        (Except.error (conflict ("Skill with name " ++ quoted input.name ++ " already exists")), db)
    | none =>
      let description := createDescription input
      let sk := repoCreateSkill db input.name description true now now
      let vr := repoCreateVersion sk.2 sk.1.id 1 input.changelog now "ai"
      let rows := input.files.map (fun f =>
        FileRow.mk sk.1.id vr.1.id f.path f.content
          (f.is_executable.getD false) f.script_language f.run_instructions_for_ai now)
      let fl := repoCreateFiles vr.2 rows
      (Except.ok ⟨sk.1, vr.1, fl.1.map SkillFile.meta⟩, fl.2)

/-- The id-then-name skill resolution used by updateSkill, getSkill,
getFile and updateStatus. -/
def resolveSkill (db : DB) (idOrName : String) : Option Skill :=
  match findSkillById db idOrName with
  | some s => some s
  | none => findSkillByName db idOrName

/-- One arm of the switch over change.type in updateSkill: add inserts a
fresh row (overwriting the key), update rewrites an existing entry and is
a no-op for an absent path, delete removes the key. The TS non-null
assertion change.content! is modelled with getD, reachable only for
validated changes where content is present. -/
def applyChange (skillId versionId : String) (now : Nat)
    (m : List (String × SkillFile)) (change : FileChange) :
    List (String × SkillFile) :=
  match change.type with
  | ChangeType.add =>
      mapSet m change.path
        { id := ""
          skill_id := skillId
          version_id := versionId
          path := change.path
          content := change.content.getD ""
          is_executable := change.is_executable.getD false
          script_language := change.script_language
          run_instructions_for_ai := change.run_instructions_for_ai
          created_at := now }
  | ChangeType.update =>
      match mapGet m change.path with
      | some existing =>
          mapSet m change.path
            { existing with
              content := change.content.getD ""
              is_executable := change.is_executable.getD existing.is_executable
              script_language := match change.script_language with
                | some l => some l
                | none => existing.script_language
              run_instructions_for_ai := match change.run_instructions_for_ai with
                | some r => some r
                | none => existing.run_instructions_for_ai
              created_at := now }
      | none => m
  | ChangeType.delete => mapDelete m change.path

/-- The whole for-loop over input.file_changes in updateSkill. -/
def applyChangesMap (skillId versionId : String) (now : Nat)
    (m : List (String × SkillFile)) (changes : List FileChange) :
    List (String × SkillFile) :=
  changes.foldl (applyChange skillId versionId now) m

/-- The metadata-patch computation of updateSkill: start from
updated_at, add the explicit description when supplied, then extract
name/description from an added or updated SKILL.md; the Bool is the
hasUpdates flag (only the updated_at patch is sent when it stays false,
matching the two branches of the source). -/
def updatePatch (input : UpdateSkillInput) (skill : Skill) (now : Nat) :
    SkillPatch × Bool :=
  let st0 : SkillPatch × Bool :=
    match input.description with
    | some d => ({ updated_at := some now, description := some (some d) }, true)
    | none => ({ updated_at := some now }, false)
  match input.file_changes with
  | none => st0
  | some changes =>
    match changes.find? (fun c =>
        c.path == "SKILL.md" && (c.type == ChangeType.add || c.type == ChangeType.update)) with
    | none => st0
    | some change =>
      match change.content with
      | none => st0
      | some c =>
        if c = "" then st0
        else
          let metadata := parseSkillMetadata c
          let stA : SkillPatch × Bool :=
            match metadata.name with
            | some n => if n ≠ skill.name then ({ st0.1 with name := some n }, true) else st0
            | none => st0
          match metadata.description with
          | some d =>
              match input.description with
              | none => ({ stA.1 with description := some (some d) }, true)
              | some _ => stA
          | none => stA

/-- The file set updateSkill loads as its base: the files of the latest
version of the given skill id, or the empty list when the skill has no
version (read-only mirror of the first steps of updateSkill, used to
state properties of its result). -/
def currentFilesOf (db : DB) (skillId : String) : List SkillFile :=
  match findVersion db skillId (getLatestVersionNumber db skillId) with
  | some v => findFilesByVersionId db v.id
  | none => []

/-- The final path-to-file map updateSkill materialises: the base map when
no file_changes were supplied, otherwise the fold of the changes. -/
def applyChangesOf (input : UpdateSkillInput) (skillId versionId : String)
    (now : Nat) (base : List (String × SkillFile)) : List (String × SkillFile) :=
  match input.file_changes with
  | some changes => applyChangesMap skillId versionId now base changes
  | none => base

/-- updateSkill from skill.service.ts: resolve by id then name, load the
latest version and its files, validate, patch skill metadata, create a
version numbered latest plus one, apply the file changes to a copy of
the path-to-file map and write the resulting map as entirely new rows
bound to the new version id. -/
def updateSkill (input : UpdateSkillInput) (db : DB) (now : Nat) :
    Except AppError SkillDetail × DB :=
  match resolveSkill db input.skill_id with
  | none => (Except.error (notFound "Skill"), db)
  | some skill =>
    let currentVersionNumber := getLatestVersionNumber db skill.id
    let currentFiles := currentFilesOf db skill.id
    let validation := validateUpdateSkill input currentFiles.length
    if validation.valid = false then
      (Except.error (validationError (String.intercalate "; " validation.errors)), db)
    else
      let st := updatePatch input skill now
      let patch := if st.2 then st.1 else { updated_at := some now }
      let upd := repoUpdateSkill db skill.id patch
      let updatedSkill := upd.1.getD skill
      let newVersionNumber := currentVersionNumber + 1
      let vr := repoCreateVersion upd.2 skill.id newVersionNumber input.changelog now "ai"
      let base := mapFromFiles currentFiles
      let finalMap := applyChangesOf input skill.id vr.1.id now base
      let rows := (mapValues finalMap).map (fun f =>
        FileRow.mk skill.id vr.1.id f.path f.content f.is_executable
          f.script_language f.run_instructions_for_ai now)
      let fl := repoCreateFiles vr.2 rows
      (Except.ok ⟨updatedSkill, vr.1, fl.1.map SkillFile.meta⟩, fl.2)

/-! ## listSkills (repository, service, REST route, MCP tool) -/

/-- ListSkillsOptions from shared/types.ts (the repository options). -/
structure ListSkillsOptions where
  activeOnly : Option Bool := none
  limit : Option Nat := none
  offset : Option Nat := none
  query : Option String := none
deriving Repr, DecidableEq

/-- ExtendedListSkillsOptions from shared/types.ts. -/
structure ExtendedListSkillsOptions where
  activeOnly : Option Bool := none
  limit : Option Nat := none
  offset : Option Nat := none
  query : Option String := none
  detailed : Option Bool := none
  showInactive : Option Bool := none
deriving Repr, DecidableEq

/-- A skills row joined with its latest version number. -/
structure SkillWithVersion where
  skill : Skill
  latest_version : Nat
deriving Repr, DecidableEq

/-- The SQL LIKE percent-wrapped match: case-insensitive (for ASCII)
substring containment. -/
def likeContains (name q : String) : Bool :=
  isInfixB (jsToLower q).toList (jsToLower name).toList

/-- repo.listSkills: filter by active flag and name substring, order by
updated_at descending (a stable sort over insertion order), join the
latest version number, then apply OFFSET and LIMIT. Defaults limit = 50
and offset = 0 are the destructuring defaults of the source; negative
SQL limits are outside the model. -/
def repoListSkills (db : DB) (options : ListSkillsOptions) : List SkillWithVersion :=
  let limit := options.limit.getD 50
  let offset := options.offset.getD 0
  let activeOnly := options.activeOnly.getD false
  let rows := db.skills.filter (fun s =>
    (if activeOnly then s.active else true) &&
    (match options.query with
     | some q => if q ≠ "" then likeContains s.name q else true
     | none => true))
  let sorted := sortBy (fun a b => b.updated_at < a.updated_at) rows
  (((sorted.map (fun s => SkillWithVersion.mk s (getLatestVersionNumber db s.id))).drop
      offset).take limit)

/-- MinimalSkillResponse from shared/types.ts. -/
structure MinimalSkill where
  name : String
  description : Option String
deriving Repr, DecidableEq

/-- The sum of the two projections listSkills can return. -/
inductive ListResult where
  | detailed (rows : List SkillWithVersion)
  | minimal (rows : List MinimalSkill)
deriving Repr, DecidableEq

/-- Number of records in a listSkills response. -/
def ListResult.numRecords : ListResult → Nat
  | ListResult.detailed rows => rows.length
  | ListResult.minimal rows => rows.length

/-- The 1024-character description truncation applied to both list
projections. -/
def truncDescription : Option String → Option String
  | some s => if s.length > 1024 then some (s.take 1024) else some s
  | none => none

/-- service.listSkills from skill.service.ts: activeOnly defaults to the
negation of showInactive, the repository is queried with the options
passed through unchanged, and the detailed projection is returned unless
detailed is explicitly false. -/
def serviceListSkills (options : ExtendedListSkillsOptions) (db : DB) : ListResult :=
  let repoOptions : ListSkillsOptions :=
    { activeOnly := some (options.activeOnly.getD (options.showInactive ≠ some true))
      limit := options.limit
      offset := options.offset
      query := options.query }
  let skills := repoListSkills db repoOptions
  if options.detailed ≠ some false then
    ListResult.detailed (skills.map (fun r =>
      { r with skill := { r.skill with description := truncDescription r.skill.description } }))
  else
    ListResult.minimal (skills.map (fun r =>
      ⟨r.skill.name, truncDescription r.skill.description⟩))

/-- The GET /skills handler of routes/api.ts (the worker entry point has
the same body): the parsed limit is capped with Math.min(limit, 100) and
the offset clamped with Math.max(offset, 0) before calling the service. -/
def restListSkills (db : DB) (activeOnly : Bool) (limit offset : Nat)
    (query : Option String) (detailed : Bool) : ListResult :=
  serviceListSkills
    { activeOnly := some activeOnly
      limit := some (min limit 100)
      offset := some (max offset 0)
      query := query
      detailed := some detailed } db

/-- handleSkillList from the MCP tool routes: the tool arguments are
passed to the service unchanged, with no cap on limit. -/
def mcpSkillList (db : DB) (active_only : Option Bool) (limit offset : Option Nat)
    (query : Option String) : ListResult :=
  serviceListSkills
    { activeOnly := active_only
      limit := limit
      offset := offset
      query := query } db

/-! ## Session store (src/worker/services/session.service.ts)

The upload_sessions D1 table is a list of rows; the JSON serialization of
the folder list is modelled as the value itself (parse of stringify is
the identity on the data). -/

/-- One file extracted from a skill folder of a ZIP. -/
structure ExtractedFile where
  path : String
  content : String
  isBinary : Bool
deriving Repr, DecidableEq

/-- One candidate skill folder extracted from a ZIP. -/
structure SkillFolder where
  name : String
  files : List ExtractedFile
deriving Repr, DecidableEq

/-- A row of the upload_sessions table. -/
structure SessionRow where
  id : String
  skills_data : List SkillFolder
  created_at : Nat
  expires_at : Nat
deriving Repr, DecidableEq

/-- SessionData returned by the store. -/
structure SessionData where
  skills : List SkillFolder
  created_at : Nat
  expires_at : Nat
deriving Repr, DecidableEq

/-- SESSION_TTL: 10 minutes in milliseconds. -/
def SESSION_TTL : Nat := 10 * 60 * 1000

/-- store.create: INSERT a row with expires_at = now + TTL; the opaque id
is supplied by the caller in place of crypto.randomUUID. -/
def sessionCreate (tbl : List SessionRow) (sid : String)
    (skills : List SkillFolder) (now : Nat) : String × List SessionRow :=
  (sid, tbl ++ [⟨sid, skills, now, now + SESSION_TTL⟩])

/-- store.get: SELECT ... WHERE id = ? AND expires_at > now. -/
def sessionGet (tbl : List SessionRow) (sid : String) (now : Nat) :
    Option SessionData :=
  match tbl.find? (fun r => r.id == sid && decide (now < r.expires_at)) with
  | some r => some ⟨r.skills_data, r.created_at, r.expires_at⟩
  | none => none

/-- store.delete: DELETE ... WHERE id = ?. -/
def sessionDelete (tbl : List SessionRow) (sid : String) : List SessionRow :=
  tbl.filter (fun r => r.id != sid)

/-- store.cleanup: DELETE ... WHERE expires_at <= now. -/
def sessionCleanup (tbl : List SessionRow) (now : Nat) : List SessionRow :=
  tbl.filter (fun r => decide (now < r.expires_at))

/-! ## File-type utilities (src/worker/lib/file-type.ts) -/

/-- The EXECUTABLE_EXTENSIONS table as a lookup function. -/
def EXECUTABLE_EXTENSIONS : String → Option String
  | ".py" => some "python"
  | ".sh" => some "bash"
  | ".js" => some "javascript"
  | ".ts" => some "typescript"
  | _ => none

/-- JS String.lastIndexOf for a single character, with -1 for absent. -/
def lastIndexOfChar (cs : List Char) (c : Char) : Int :=
  match cs.reverse.findIdx? (fun x => x == c) with
  | some i => ((cs.length - 1 - i : Nat) : Int)
  | none => -1

/-- getExtension from file-type.ts: the lowercased suffix from the last
dot, or none when there is no dot or the dot sits before the last path
separator. -/
def getExtension (path : String) : Option String :=
  let cs := path.toList
  let lastDot := lastIndexOfChar cs '.'
  let lastSlash := max (lastIndexOfChar cs '/') (lastIndexOfChar cs '\\')
  if lastDot = -1 ∨ lastDot < lastSlash then none
  else some (String.mk ((cs.drop lastDot.toNat).map Char.toLower))

/-- isExecutable from file-type.ts. -/
def isExecutable (path : String) : Bool :=
  match getExtension path with
  | none => false
  | some ext => (EXECUTABLE_EXTENSIONS ext).isSome

/-- getScriptLanguage from file-type.ts. -/
def getScriptLanguage (path : String) : Option String :=
  match getExtension path with
  | none => none
  | some ext => EXECUTABLE_EXTENSIONS ext

/-- The byte classes counted by the isBinary loop: control characters
below 32 other than tab, newline and carriage return, and the extended
range 127..159. -/
def isNonPrintable (b : Nat) : Bool :=
  (b < 32 && b != 9 && b != 10 && b != 13) || (126 < b && b < 160)

/-- isBinary from file-type.ts: empty content is text; a null byte in the
first 8KB means binary; otherwise binary when more than 10 percent of
the sampled prefix is non-printable. The floating-point comparison
count / checkLength > 0.1 is modelled exactly by 10 * count > checkLength:
for denominators up to 8192 the two sides of the double comparison are
separated by far more than the rounding error except at exact equality,
where both are false. -/
def isBinary (content : List Nat) : Bool :=
  if content.length = 0 then false
  else
    let checkLength := min content.length 8192
    let sampled := content.take 8192
    if sampled.contains 0 then true
    else decide (10 * sampled.countP isNonPrintable > checkLength)

/-! ## ZIP parsing (src/worker/services/zip-parser.service.ts)

fflate decompression is the external collaborator; the model starts from
its output, a list of (path, bytes, isDirectory) entries. -/

/-- One entry of a parsed ZIP. -/
structure ZipEntry where
  path : String
  content : List Nat
  isDirectory : Bool
deriving Repr, DecidableEq

/-- ParsedZip from zip-parser.service.ts. -/
structure ParsedZip where
  files : List ZipEntry
  totalSize : Nat
deriving Repr, DecidableEq

/-- Continuation-byte test for the UTF-8 decoder. -/
def utf8Cont (b : Nat) : Bool := 128 ≤ b && b < 192

/-- Fuel-driven UTF-8 decoder standing in for TextDecoder; each step
consumes at least one byte so fuel = length suffices. Malformed input is
mapped to U+FFFD per lead byte (TextDecoder groups maximal subparts; the
difference does not affect any property proved here). -/
def decodeUtf8Aux : Nat → List Nat → List Char
  | 0, _ => []
  | _ + 1, [] => []
  | fuel + 1, b :: rest =>
    if b < 128 then Char.ofNat b :: decodeUtf8Aux fuel rest
    else if 194 ≤ b ∧ b ≤ 223 then
      match rest with
      | b2 :: rest2 =>
          if utf8Cont b2 then
            Char.ofNat ((b - 192) * 64 + (b2 - 128)) :: decodeUtf8Aux fuel rest2
          else '�' :: decodeUtf8Aux fuel rest
      | [] => ['�']
    else if 224 ≤ b ∧ b ≤ 239 then
      match rest with
      | b2 :: b3 :: rest3 =>
          if utf8Cont b2 && utf8Cont b3 then
            Char.ofNat ((b - 224) * 4096 + (b2 - 128) * 64 + (b3 - 128)) ::
              decodeUtf8Aux fuel rest3
          else '�' :: decodeUtf8Aux fuel rest
      | _ => ['�']
    else if 240 ≤ b ∧ b ≤ 244 then
      match rest with
      | b2 :: b3 :: b4 :: rest4 =>
          if utf8Cont b2 && utf8Cont b3 && utf8Cont b4 then
            Char.ofNat ((b - 240) * 262144 + (b2 - 128) * 4096 + (b3 - 128) * 64 + (b4 - 128)) ::
              decodeUtf8Aux fuel rest4
          else '�' :: decodeUtf8Aux fuel rest
      | _ => ['�']
    else '�' :: decodeUtf8Aux fuel rest

/-- decodeTextContent from zip-parser.service.ts. -/
def decodeTextContent (content : List Nat) : String :=
  String.mk (decodeUtf8Aux content.length content)

/-- Append a file to a folder of the grouping map, creating the folder at
the end on first use (JS object/Map insertion order). -/
def folderAppend (m : List (String × List ExtractedFile)) (k : String)
    (f : ExtractedFile) : List (String × List ExtractedFile) :=
  if m.any (fun e => e.1 == k) then
    m.map (fun e => if e.1 == k then (e.1, e.2 ++ [f]) else e)
  else m ++ [(k, [f])]

/-- extractSkillFolders from zip-parser.service.ts: skip directory
entries and root-level files, group the rest by their first path
segment, classify each file as binary or text, and decode text content
(binary files keep empty content). -/
def extractSkillFolders (zip : ParsedZip) : List SkillFolder :=
  let folderMap := zip.files.foldl
    (fun (m : List (String × List ExtractedFile)) entry =>
      if entry.isDirectory then m
      else
        let pathParts := jsSplitOn '/' entry.path
        if pathParts.length < 2 then m
        else
          let rootFolder := pathParts.headD ""
          let relativePath := String.intercalate "/" (pathParts.drop 1)
          let fb := isBinary entry.content
          let textContent := if fb then "" else decodeTextContent entry.content
          folderAppend m rootFolder ⟨relativePath, textContent, fb⟩)
    []
  folderMap.map (fun e => ⟨e.1, e.2⟩)

/-! ## Upload validation (src/worker/lib/upload-validation.ts) -/

/-- UPLOAD_CONSTRAINTS.MAX_ZIP_SIZE: 10MB. -/
def MAX_ZIP_SIZE : Nat := 10 * 1024 * 1024

/-- validateZipSize from upload-validation.ts. -/
def validateZipSize (sizeInBytes : Nat) : ValidationResult :=
  if sizeInBytes > MAX_ZIP_SIZE then
    ⟨false, ["ZIP file exceeds maximum size of 10MB"]⟩
  else ⟨true, []⟩

/-- validateSkillFolder from upload-validation.ts: binary files are
filtered out first, a SKILL.md marker (case-insensitive name variant
accepted) is required, and the text files are bounded by the 50-file and
200KB constraints; all violations are collected. -/
def validateSkillFolder (folder : SkillFolder) : ValidationResult :=
  let textFiles := folder.files.filter (fun f => !f.isBinary)
  let hasSkillMd := textFiles.any (fun f =>
    f.path == "SKILL.md" || jsToLower f.path == "skill.md")
  let markerErrors :=
    if hasSkillMd then [] else ["Skill folder must contain SKILL.md file"]
  let countErrors :=
    if textFiles.length > FILES_PER_VERSION_MAX then
      ["Skill contains more than 50 files"]
    else []
  let sizeErrors := textFiles.flatMap (fun f =>
    if f.content.utf8ByteSize > FILE_CONTENT_MAX then
      ["File " ++ quoted f.path ++ " exceeds maximum size of 200KB"]
    else [])
  let errors := markerErrors ++ countErrors ++ sizeErrors
  ⟨errors.length == 0, errors⟩

/-! ## Import pipeline (src/worker/services/upload.service.ts) -/

/-- SkillPreview from upload.service.ts. -/
structure SkillPreview where
  name : String
  valid : Bool
  file_count : Nat
  errors : List String
  description : Option String
deriving Repr, DecidableEq

/-- extractDescription helper: the first non-empty line of SKILL.md that
is not a markdown heading, truncated to 200 characters. -/
def firstContentLine : List String → Option String
  | [] => none
  | line :: rest =>
    let trimmed := jsTrim line
    if trimmed = "" ∨ jsStartsWith trimmed "#" then firstContentLine rest
    else some (if trimmed.length > 200 then trimmed.take 197 ++ "..." else trimmed)

/-- extractDescription from upload.service.ts. -/
def extractDescription (skillFolder : SkillFolder) : Option String :=
  match skillFolder.files.find? (fun f =>
      f.path == "SKILL.md" || jsToLower f.path == "skill.md") with
  | none => none
  | some skillMd => firstContentLine (jsSplitOn '\n' skillMd.content)

/-- The per-folder preview record built by the parse phase. -/
def buildPreview (folder : SkillFolder) : SkillPreview :=
  let validation := validateSkillFolder folder
  let textFiles := folder.files.filter (fun f => !f.isBinary)
  ⟨folder.name, validation.valid, textFiles.length, validation.errors,
    if validation.valid then extractDescription folder else none⟩

/-- SkillImportResult from upload.service.ts. -/
structure SkillImportResult where
  name : String
  status : String
  skill_id : Option String := none
  version : Option Nat := none
  error : Option String := none
  is_new : Option Bool := none
deriving Repr, DecidableEq

/-- ProcessResult from upload.service.ts. -/
structure ProcessResult where
  total : Nat
  successful : Nat
  failed : Nat
  results : List SkillImportResult
deriving Repr, DecidableEq

/-- The engine file-input shape built from an imported folder file. -/
structure ImportFile where
  path : String
  content : String
  is_executable : Bool
  script_language : Option String
deriving Repr, DecidableEq

/-- Substring containment, modelling JS String.includes. -/
def strContains (s sub : String) : Bool :=
  isInfixB sub.toList s.toList

/-- createOrUpdateSkill from upload.service.ts: try createSkill with the
imported files; when that fails with a message containing the
already-exists text, fall back to updateSkill against the name,
submitting every imported file as an update change. -/
def createOrUpdateSkill (name : String) (files : List ImportFile)
    (db : DB) (now : Nat) : Except AppError SkillImportResult × DB :=
  let input : CreateSkillInput :=
    { name := name
      files := files.map (fun f =>
        { path := f.path
          content := f.content
          is_executable := some f.is_executable
          script_language := f.script_language })
      changelog := some "Imported via ZIP upload" }
  match createSkill input db now with
  | (Except.ok detail, db1) =>
      (Except.ok ⟨name, "success", some detail.skill.id,
        some detail.version.version_number, none, some true⟩, db1)
  | (Except.error err, db1) =>
      if strContains err.message "already exists" then
        let upd : UpdateSkillInput :=
          { skill_id := name
            file_changes := some (files.map (fun f =>
              { type := ChangeType.update
                path := f.path
                content := some f.content
                is_executable := some f.is_executable
                script_language := f.script_language }))
            changelog := some "Updated via ZIP upload" }
        match updateSkill upd db1 now with
        | (Except.ok detail, db2) =>
            (Except.ok ⟨name, "success", some detail.skill.id,
              some detail.version.version_number, none, some false⟩, db2)
        | (Except.error e, db2) => (Except.error e, db2)
      else (Except.error err, db1)

/-- The conversion of a folder into engine file inputs in processSelected:
binary files dropped, executable flag and script-language tag derived
from the extension. -/
def importFilesOf (folder : SkillFolder) : List ImportFile :=
  (folder.files.filter (fun f => !f.isBinary)).map (fun f =>
    ⟨f.path, f.content, isExecutable f.path, getScriptLanguage f.path⟩)

/-- One iteration of the processSelected loop: re-validate the folder,
then run createOrUpdateSkill with errors caught into a failed result. -/
def processFolder (folder : SkillFolder) (db : DB) (now : Nat) :
    SkillImportResult × DB :=
  let validation := validateSkillFolder folder
  if validation.valid = false then
    (⟨folder.name, "failed", none, none,
      some (String.intercalate "; " validation.errors), none⟩, db)
  else
    match createOrUpdateSkill folder.name (importFilesOf folder) db now with
    | (Except.ok r, db1) => (r, db1)
    | (Except.error err, db1) =>
        (⟨folder.name, "failed", none, none, some err.message, none⟩, db1)

/-- processSelected from upload.service.ts: look up the session (throwing
a ValidationError when absent or expired), restrict to the selected
folder names, process each folder collecting per-item results, delete
the session, and build the summary counts. -/
def processSelected (tbl : List SessionRow) (db : DB) (now : Nat)
    (sessionId : String) (selectedSkills : List String) :
    Except AppError ProcessResult × DB × List SessionRow :=
  match sessionGet tbl sessionId now with
  | none => (Except.error (validationError "Session not found or expired"), db, tbl)
  | some session =>
    let selectedFolders := session.skills.filter
      (fun folder => selectedSkills.contains folder.name)
    let step := fun (acc : List SkillImportResult × DB) (folder : SkillFolder) =>
      let (r, db2) := processFolder folder acc.2 now
      (acc.1 ++ [r], db2)
    let out := selectedFolders.foldl step ([], db)
    let tbl2 := sessionDelete tbl sessionId
    let successful := (out.1.filter (fun r => r.status == "success")).length
    (Except.ok ⟨out.1.length, successful, out.1.length - successful, out.1⟩, out.2, tbl2)

/-- The POST /process route of the upload API: a processSelected failure
whose message contains the session-not-found text is rethrown as a
NotFound error; everything else passes through. -/
def uploadProcessRoute (tbl : List SessionRow) (db : DB) (now : Nat)
    (sessionId : String) (selectedSkills : List String) :
    Except AppError ProcessResult × DB × List SessionRow :=
  match processSelected tbl db now sessionId selectedSkills with
  | (Except.error err, db1, tbl1) =>
      if strContains err.message "Session not found" then
        (Except.error (notFound "Session"), db1, tbl1)
      else (Except.error err, db1, tbl1)
  | ok => ok

/-! ## Concrete fixtures used by witnesses and counterexamples -/

/-- A single python file input. -/
def exFileInput : FileInput := { path := "main.py", content := "print(1)" }

/-- A minimal valid createSkill input. -/
def exCreateInput : CreateSkillInput := { name := "demo", files := [exFileInput] }

/-- A database holding the skill demo at version 1 with file main.py. -/
def exDb : DB := (createSkill exCreateInput {} 1000).2

/-- An updateSkill input against demo with no file changes. -/
def exUpdInput : UpdateSkillInput := { skill_id := "demo" }

/-- A createSkill input with files y and z. -/
def c4CreateInput : CreateSkillInput :=
  { name := "c4s"
    files := [{ path := "y", content := "cy" }, { path := "z", content := "cz" }] }

/-- A database holding the skill c4s at version 1 with files y and z. -/
def c4Db : DB := (createSkill c4CreateInput {} 10).2

/-- The update submitting add x then delete y against c4s. -/
def c4UpdInput : UpdateSkillInput :=
  { skill_id := "c4s"
    file_changes := some
      [{ type := ChangeType.add, path := "x", content := some "cx" },
       { type := ChangeType.delete, path := "y" }] }

/-- The import files of a folder holding the single text file b.py. -/
def c3ImportFiles : List ImportFile := [⟨"b.py", "print(2)", true, some "python"⟩]

/-- A database of 101 active skills, for exercising the list limit. -/
def bigDb : DB :=
  { skills := (List.range 101).map (fun i =>
      ⟨"id" ++ toString i, "nm" ++ toString i, none, true, 0, 0⟩) }

/-- A session table holding one row that expires at time 10. -/
def exSessionTbl : List SessionRow := [⟨"sess", [], 0, 10⟩]

/-- The detail returned by updating demo (no file changes) at time 2000. -/
def c2Det : SkillDetail :=
  ⟨⟨"uuid-0", "demo", none, true, 1000, 2000⟩,
    ⟨"uuid-3", "uuid-0", 2, none, 2000, "ai"⟩,
    [⟨"uuid-4", "uuid-0", "uuid-3", "main.py", false, none, none, 2000⟩]⟩

/-- The database after updating demo (no file changes) at time 2000. -/
def c2Db2 : DB :=
  { skills := [⟨"uuid-0", "demo", none, true, 1000, 2000⟩]
    versions := [⟨"uuid-1", "uuid-0", 1, none, 1000, "ai"⟩,
      ⟨"uuid-3", "uuid-0", 2, none, 2000, "ai"⟩]
    files := [⟨"uuid-2", "uuid-0", "uuid-1", "main.py", "print(1)", false, none, none, 1000⟩,
      ⟨"uuid-4", "uuid-0", "uuid-3", "main.py", "print(1)", false, none, none, 2000⟩]
    nextId := 5 }

/-! ## Theorems -/

/-! ### Association-list map lemmas -/

theorem mapGet_subst_ne (m : List (String × SkillFile)) (k q : String)
    (v : SkillFile) (hqk : q ≠ k) :
    mapGet (m.map (fun e => if e.1 == k then (k, v) else e)) q = mapGet m q := by
  induction m with
  | nil => rfl
  | cons e m ih =>
    by_cases hek : e.1 = k
    · have hhead : (if e.1 == k then (k, v) else e) = (k, v) := by simp [hek]
      simp only [mapGet, List.map_cons, hhead]
      rw [List.find?_cons_of_neg _ (by simp [Ne.symm hqk]),
        List.find?_cons_of_neg _ (by simp [hek, Ne.symm hqk])]
      simpa [mapGet] using ih
    · have hhead : (if e.1 == k then (k, v) else e) = e := by simp [hek]
      simp only [mapGet, List.map_cons, hhead]
      by_cases heq : e.1 = q
      · rw [List.find?_cons_of_pos _ (by simp [heq]),
          List.find?_cons_of_pos _ (by simp [heq])]
      · rw [List.find?_cons_of_neg _ (by simp [heq]),
          List.find?_cons_of_neg _ (by simp [heq])]
        simpa [mapGet] using ih

theorem mapGet_subst_self (m : List (String × SkillFile)) (k : String)
    (v : SkillFile) (hhas : mapHas m k = true) :
    mapGet (m.map (fun e => if e.1 == k then (k, v) else e)) k = some v := by
  induction m with
  | nil => simp [mapHas] at hhas
  | cons e m ih =>
    by_cases hek : e.1 = k
    · have hhead : (if e.1 == k then (k, v) else e) = (k, v) := by simp [hek]
      simp only [mapGet, List.map_cons, hhead]
      rw [List.find?_cons_of_pos _ (by simp)]
      rfl
    · have hhead : (if e.1 == k then (k, v) else e) = e := by simp [hek]
      have hhas' : mapHas m k = true := by
        simpa [mapHas, hek] using hhas
      simp only [mapGet, List.map_cons, hhead]
      rw [List.find?_cons_of_neg _ (by simp [hek])]
      simpa [mapGet] using ih hhas'

theorem mapHas_false_find? (m : List (String × SkillFile)) (k : String)
    (hhas : mapHas m k = false) :
    m.find? (fun e => e.1 == k) = none := by
  rw [List.find?_eq_none]
  intro e he
  intro hek
  have : m.any (fun e => e.1 == k) = true := List.any_eq_true.mpr ⟨e, he, hek⟩
  rw [mapHas] at hhas
  rw [this] at hhas
  cases hhas

theorem mapGet_mapSet (m : List (String × SkillFile)) (k q : String) (v : SkillFile) :
    mapGet (mapSet m k v) q = if q = k then some v else mapGet m q := by
  unfold mapSet
  by_cases hhas : mapHas m k = true
  · rw [if_pos hhas]
    by_cases hqk : q = k
    · subst hqk
      rw [if_pos rfl]
      exact mapGet_subst_self m q v hhas
    · rw [if_neg hqk]
      exact mapGet_subst_ne m k q v hqk
  · rw [if_neg hhas]
    have hnone := mapHas_false_find? m k (by simpa using hhas)
    by_cases hqk : q = k
    · subst hqk
      rw [if_pos rfl]
      unfold mapGet
      rw [List.find?_append, hnone]
      simp
    · rw [if_neg hqk]
      unfold mapGet
      rw [List.find?_append]
      have htail : ([(k, v)].find? (fun e => e.1 == q)) = none := by
        rw [List.find?_cons_of_neg _ (by simp; exact fun h => hqk h.symm)]
        rfl
      rw [htail]
      simp

theorem mapGet_mapDelete (m : List (String × SkillFile)) (k q : String) :
    mapGet (mapDelete m k) q = if q = k then none else mapGet m q := by
  induction m with
  | nil => simp [mapDelete, mapGet]
  | cons e m ih =>
    unfold mapDelete at *
    by_cases hek : e.1 = k
    · rw [List.filter_cons_of_neg (by simp [hek])]
      rw [ih]
      by_cases hqk : q = k
      · simp [hqk]
      · rw [if_neg hqk, if_neg hqk]
        unfold mapGet
        rw [List.find?_cons_of_neg _ (by simp [hek]; exact fun h => hqk h.symm)]
    · rw [List.filter_cons_of_pos (by simp [hek])]
      by_cases heq : e.1 = q
      · have hqk : ¬ (q = k) := fun h => hek (by rw [heq, h])
        rw [if_neg hqk]
        unfold mapGet
        rw [List.find?_cons_of_pos _ (by simp [heq]),
          List.find?_cons_of_pos _ (by simp [heq])]
      · unfold mapGet at ih ⊢
        rw [List.find?_cons_of_neg _ (by simp [heq]),
          List.find?_cons_of_neg _ (by simp [heq])]
        exact ih

theorem mapKeys_mapSet_of_has (m : List (String × SkillFile)) (k : String)
    (v : SkillFile) (hhas : mapHas m k = true) :
    mapKeys (mapSet m k v) = mapKeys m := by
  unfold mapSet
  rw [if_pos hhas]
  unfold mapKeys
  rw [List.map_map]
  apply List.map_congr_left
  intro e _
  by_cases hek : e.1 = k
  · simp [Function.comp, hek]
  · simp [Function.comp, hek]

theorem mapGet_isSome_mapHas (m : List (String × SkillFile)) (k : String)
    (h : (mapGet m k).isSome = true) : mapHas m k = true := by
  unfold mapGet at h
  cases hf : m.find? (fun e => e.1 == k) with
  | none => rw [hf] at h; simp at h
  | some e =>
    have hmem := List.mem_of_find?_eq_some hf
    have hp := List.find?_some hf
    exact List.any_eq_true.mpr ⟨e, hmem, hp⟩

theorem mem_mapKeys_mapSet (m : List (String × SkillFile)) (k q : String)
    (v : SkillFile) :
    q ∈ mapKeys (mapSet m k v) ↔ q = k ∨ q ∈ mapKeys m := by
  unfold mapSet
  by_cases hhas : mapHas m k = true
  · rw [if_pos hhas, show (m.map fun e => if e.1 == k then (k, v) else e) = mapSet m k v by
      unfold mapSet; rw [if_pos hhas]]
    rw [mapKeys_mapSet_of_has m k v hhas]
    constructor
    · exact Or.inr
    · rintro (rfl | hq)
      · unfold mapHas at hhas
        obtain ⟨e, he, hek⟩ := List.any_eq_true.mp hhas
        have : e.1 = q := by simpa using hek
        exact this ▸ List.mem_map_of_mem (fun e => e.1) he
      · exact hq
  · rw [if_neg hhas]
    unfold mapKeys
    simp [or_comm]

theorem mem_mapKeys_mapFromFiles (files : List SkillFile) (p : String) :
    p ∈ mapKeys (mapFromFiles files) ↔ p ∈ files.map (fun f => f.path) := by
  suffices h : ∀ (m : List (String × SkillFile)),
      p ∈ mapKeys (files.foldl (fun m f => mapSet m f.path f) m) ↔
        p ∈ mapKeys m ∨ p ∈ files.map (fun f => f.path) by
    have := h []
    simpa [mapFromFiles, mapKeys] using this
  induction files with
  | nil => simp
  | cons f files ih =>
    intro m
    simp only [List.foldl_cons, List.map_cons, List.mem_cons]
    rw [ih (mapSet m f.path f), mem_mapKeys_mapSet]
    tauto

/-! ### Path invariant of the file map

Every map built by updateSkill binds a file row whose path field equals
its key; this connects the values written to the new version with the
keys of the map. -/

/-- Every entry of the map stores a row whose path equals its key. -/
def PathInv (m : List (String × SkillFile)) : Prop :=
  ∀ e ∈ m, e.2.path = e.1

theorem pathInv_mapSet (m : List (String × SkillFile)) (k : String)
    (v : SkillFile) (hinv : PathInv m) (hv : v.path = k) :
    PathInv (mapSet m k v) := by
  unfold mapSet
  split
  · intro e he
    obtain ⟨e0, he0, heq⟩ := List.mem_map.mp he
    by_cases hek : e0.1 = k
    · simp only [hek, beq_self_eq_true, if_pos] at heq
      rw [← heq]
      exact hv
    · simp only [beq_iff_eq, hek, if_false] at heq
      rw [← heq]
      exact hinv e0 he0
  · intro e he
    rcases List.mem_append.mp he with h | h
    · exact hinv e h
    · simp only [List.mem_singleton] at h
      rw [h]
      exact hv

theorem pathInv_mapGet (m : List (String × SkillFile)) (k : String)
    (f : SkillFile) (hinv : PathInv m) (h : mapGet m k = some f) :
    f.path = k := by
  unfold mapGet at h
  cases hf : m.find? (fun e => e.1 == k) with
  | none => rw [hf] at h; cases h
  | some e =>
    rw [hf] at h
    have hmem := List.mem_of_find?_eq_some hf
    have hp := List.find?_some hf
    simp only [beq_iff_eq] at hp
    have := hinv e hmem
    simp at h
    rw [← h, this, hp]

theorem pathInv_mapFromFiles (files : List SkillFile) :
    PathInv (mapFromFiles files) := by
  suffices h : ∀ (m : List (String × SkillFile)), PathInv m →
      PathInv (files.foldl (fun m f => mapSet m f.path f) m) from
    h [] (by intro e he; cases he)
  induction files with
  | nil => intro m hm; exact hm
  | cons f files ih =>
    intro m hm
    exact ih (mapSet m f.path f) (pathInv_mapSet m f.path f hm rfl)

theorem pathInv_applyChange (s v : String) (n : Nat)
    (m : List (String × SkillFile)) (c : FileChange) (hinv : PathInv m) :
    PathInv (applyChange s v n m c) := by
  unfold applyChange
  cases c.type with
  | add => exact pathInv_mapSet m c.path _ hinv rfl
  | update =>
    cases hg : mapGet m c.path with
    | none => exact hinv
    | some existing =>
      exact pathInv_mapSet m c.path _ hinv (pathInv_mapGet m c.path existing hinv hg)
  | delete =>
    intro e he
    exact hinv e (List.mem_of_mem_filter he)

theorem pathInv_applyChangesMap (s v : String) (n : Nat)
    (m : List (String × SkillFile)) (cs : List FileChange) (hinv : PathInv m) :
    PathInv (applyChangesMap s v n m cs) := by
  induction cs generalizing m with
  | nil => exact hinv
  | cons c cs ih =>
    exact ih (applyChange s v n m c) (pathInv_applyChange s v n m c hinv)

theorem mapValues_path_eq_mapKeys (m : List (String × SkillFile))
    (hinv : PathInv m) :
    (mapValues m).map (fun f => f.path) = mapKeys m := by
  unfold mapValues mapKeys
  rw [List.map_map]
  exact List.map_congr_left (fun e he => hinv e he)

/-! ### Update-only change lists preserve the key set -/

theorem mapKeys_applyChange_update (s v : String) (n : Nat)
    (m : List (String × SkillFile)) (c : FileChange)
    (hc : c.type = ChangeType.update) :
    mapKeys (applyChange s v n m c) = mapKeys m := by
  unfold applyChange
  rw [hc]
  cases hg : mapGet m c.path with
  | none => rfl
  | some existing =>
    apply mapKeys_mapSet_of_has
    exact mapGet_isSome_mapHas m c.path (by rw [hg]; rfl)

theorem mapKeys_applyChangesMap_updates (s v : String) (n : Nat)
    (m : List (String × SkillFile)) (cs : List FileChange)
    (hall : ∀ c ∈ cs, c.type = ChangeType.update) :
    mapKeys (applyChangesMap s v n m cs) = mapKeys m := by
  induction cs generalizing m with
  | nil => rfl
  | cons c cs ih =>
    have h1 : mapKeys (applyChange s v n m c) = mapKeys m :=
      mapKeys_applyChange_update s v n m c (hall c (List.mem_cons_self c cs))
    have h2 := ih (applyChange s v n m c) (fun c' hc' => hall c' (List.mem_cons_of_mem c hc'))
    unfold applyChangesMap at *
    rw [List.foldl_cons]
    rw [h2, h1]

/-! ### Frame lemma for the batched file INSERT -/

theorem createFilesFold_spec (rows : List FileRow) :
    ∀ (acc : List SkillFile × DB),
      ∃ new, (rows.foldl createFilesStep acc).1 = acc.1 ++ new ∧
        (rows.foldl createFilesStep acc).2.files = acc.2.files ++ new ∧
        (rows.foldl createFilesStep acc).2.versions = acc.2.versions ∧
        (rows.foldl createFilesStep acc).2.skills = acc.2.skills ∧
        new.map (fun f => (f.skill_id, f.version_id, f.path, f.content)) =
          rows.map (fun r => (r.skill_id, r.version_id, r.path, r.content)) := by
  induction rows with
  | nil =>
    intro acc
    exact ⟨[], by simp, by simp, rfl, rfl, rfl⟩
  | cons r rest ih =>
    intro acc
    obtain ⟨new, h1, h2, h3, h4, h5⟩ := ih (createFilesStep acc r)
    refine ⟨r.withId (genId acc.2.nextId) :: new, ?_, ?_, ?_, ?_, ?_⟩
    · rw [List.foldl_cons, h1]
      simp [createFilesStep]
    · rw [List.foldl_cons, h2]
      simp [createFilesStep]
    · rw [List.foldl_cons, h3]
      rfl
    · rw [List.foldl_cons, h4]
      rfl
    · rw [List.map_cons, List.map_cons, h5]
      rfl

theorem repoCreateFiles_spec (db : DB) (rows : List FileRow) :
    (repoCreateFiles db rows).2.files = db.files ++ (repoCreateFiles db rows).1 ∧
    (repoCreateFiles db rows).2.versions = db.versions ∧
    (repoCreateFiles db rows).2.skills = db.skills ∧
    (repoCreateFiles db rows).1.map (fun f => (f.skill_id, f.version_id, f.path, f.content)) =
      rows.map (fun r => (r.skill_id, r.version_id, r.path, r.content)) := by
  obtain ⟨new, h1, h2, h3, h4, h5⟩ := createFilesFold_spec rows ([], db)
  unfold repoCreateFiles
  refine ⟨?_, h3, h4, ?_⟩
  · rw [h2, h1]
    simp
  · rw [h1]
    simpa using h5

/-! ### Behaviour of a successful updateSkill -/

theorem updateSkill_ok_spec (input : UpdateSkillInput) (db : DB) (now : Nat)
    (detail : SkillDetail) (db' : DB)
    (h : updateSkill input db now = (Except.ok detail, db')) :
    ∃ skill, resolveSkill db input.skill_id = some skill ∧
      detail.version.version_number = getLatestVersionNumber db skill.id + 1 ∧
      detail.version.skill_id = skill.id ∧
      db'.versions = db.versions ++ [detail.version] ∧
      ∃ newRows, db'.files = db.files ++ newRows ∧
        (∀ r ∈ newRows, r.version_id = detail.version.id) ∧
        newRows.map (fun f => (f.path, f.content)) =
          (mapValues (applyChangesOf input skill.id detail.version.id now
            (mapFromFiles (currentFilesOf db skill.id)))).map
            (fun f => (f.path, f.content)) := by
  unfold updateSkill at h
  cases hres : resolveSkill db input.skill_id with
  | none =>
    rw [hres] at h
    simp at h
  | some skill =>
    rw [hres] at h
    refine ⟨skill, rfl, ?_⟩
    simp only [] at h
    split at h
    · simp at h
    · rw [Prod.mk.injEq, Except.ok.injEq] at h
      obtain ⟨hd, hdb⟩ := h
      subst hd
      subst hdb
      set upd := repoUpdateSkill db skill.id
        (if (updatePatch input skill now).2 then (updatePatch input skill now).1
          else { updated_at := some now }) with hupd
      set vr := repoCreateVersion upd.2 skill.id
        (getLatestVersionNumber db skill.id + 1) input.changelog now "ai" with hvr
      set rows := (mapValues (applyChangesOf input skill.id vr.1.id now
        (mapFromFiles (currentFilesOf db skill.id)))).map (fun f =>
          FileRow.mk skill.id vr.1.id f.path f.content f.is_executable
            f.script_language f.run_instructions_for_ai now) with hrows
      obtain ⟨hfiles, hvers, _, hquad⟩ := repoCreateFiles_spec vr.2 rows
      refine ⟨rfl, rfl, ?_, (repoCreateFiles vr.2 rows).1, ?_, ?_, ?_⟩
      · exact hvers
      · exact hfiles
      · intro r hr
        have h1 : (repoCreateFiles vr.2 rows).1.map (fun f => f.version_id) =
            rows.map (fun r => r.version_id) := by
          have := congrArg (List.map (fun t : String × String × String × String => t.2.1)) hquad
          simpa [List.map_map, Function.comp] using this
        have h2 : rows.map (fun r => r.version_id) =
            List.replicate rows.length vr.1.id := by
          rw [hrows, List.map_map, List.length_map]
          exact (List.map_congr_left (fun a _ => rfl)).trans (List.map_const' _ vr.1.id)
        have hmem : r.version_id ∈ (repoCreateFiles vr.2 rows).1.map (fun f => f.version_id) :=
          List.mem_map_of_mem _ hr
        rw [h1, h2] at hmem
        exact List.eq_of_mem_replicate hmem
      · have h1 : (repoCreateFiles vr.2 rows).1.map (fun f => (f.path, f.content)) =
            rows.map (fun r => (r.path, r.content)) := by
          have := congrArg
            (List.map (fun t : String × String × String × String => (t.2.2.1, t.2.2.2))) hquad
          simpa [List.map_map, Function.comp] using this
        rw [h1, hrows, List.map_map]
        rfl

/-! ### Validation lemmas and createSkill behaviour -/

theorem validateFile_valid (f : FileInput) (h1 : f.path ≠ "")
    (h2 : f.path.length ≤ FILE_PATH_MAX)
    (h3 : f.content.utf8ByteSize ≤ FILE_CONTENT_MAX) :
    validateFile f = ⟨true, []⟩ := by
  have e1 : (f.path = "") = False := eq_false h1
  have e2 : (f.path.length > FILE_PATH_MAX) = False := eq_false (by omega)
  have e3 : (f.content.utf8ByteSize > FILE_CONTENT_MAX) = False := eq_false (by omega)
  simp [validateFile, vrOf, e1, e2, e3]

theorem validateCreateSkill_valid (input : CreateSkillInput)
    (hname : jsTrim input.name ≠ "")
    (hnamelen : input.name.length ≤ SKILL_NAME_MAX)
    (hdesc : ∀ d, input.description = some d → d.length ≤ DESCRIPTION_MAX)
    (hcl : ∀ c, input.changelog = some c → c.length ≤ CHANGELOG_MAX)
    (hne : input.files ≠ [])
    (hcount : input.files.length ≤ FILES_PER_VERSION_MAX)
    (hfiles : ∀ f ∈ input.files, f.path ≠ "" ∧ f.path.length ≤ FILE_PATH_MAX ∧
      f.content.utf8ByteSize ≤ FILE_CONTENT_MAX)
    (hdup : (input.files.map (fun f => f.path)).Nodup) :
    validateCreateSkill input = ⟨true, []⟩ := by
  have e1 : (jsTrim input.name = "") = False := eq_false hname
  have e2 : (input.name.length > SKILL_NAME_MAX) = False := eq_false (by omega)
  have e3 : (input.files.length = 0) = False :=
    eq_false (fun hl => hne (List.length_eq_zero.mp hl))
  have e4 : (input.files.length > FILES_PER_VERSION_MAX) = False := eq_false (by omega)
  have eflat : input.files.flatMap (fun f =>
      (validateFile f).errors.map (fun e => "File " ++ quoted f.path ++ ": " ++ e)) = [] := by
    apply List.flatMap_eq_nil_iff.mpr
    intro f hf
    obtain ⟨h1, h2, h3⟩ := hfiles f hf
    rw [validateFile_valid f h1 h2 h3]
    rfl
  cases hd : input.description with
  | none =>
    cases hc : input.changelog with
    | none => simp [validateCreateSkill, vrOf, hd, hc, e1, e2, e3, e4, eflat, hdup]
    | some c =>
      have : ¬ (c ≠ "" ∧ c.length > CHANGELOG_MAX) := by
        rintro ⟨-, hgt⟩
        have := hcl c hc
        omega
      simp [validateCreateSkill, vrOf, hd, hc, e1, e2, e3, e4, eflat, hdup, this]
  | some d =>
    have hdno : ¬ (d ≠ "" ∧ d.length > DESCRIPTION_MAX) := by
      rintro ⟨-, hgt⟩
      have := hdesc d hd
      omega
    cases hc : input.changelog with
    | none => simp [validateCreateSkill, vrOf, hd, hc, e1, e2, e3, e4, eflat, hdup, hdno]
    | some c =>
      have : ¬ (c ≠ "" ∧ c.length > CHANGELOG_MAX) := by
        rintro ⟨-, hgt⟩
        have := hcl c hc
        omega
      simp [validateCreateSkill, vrOf, hd, hc, e1, e2, e3, e4, eflat, hdup, hdno, this]

theorem createSkill_error_db (input : CreateSkillInput) (db : DB) (now : Nat)
    (e : AppError) (db1 : DB)
    (h : createSkill input db now = (Except.error e, db1)) : db1 = db := by
  unfold createSkill at h
  simp only [] at h
  split at h
  · rw [Prod.mk.injEq] at h
    exact h.2.symm
  · split at h
    · rw [Prod.mk.injEq] at h
      exact h.2.symm
    · simp at h

theorem createSkill_ok_spec (input : CreateSkillInput) (db : DB) (now : Nat)
    (detail : SkillDetail) (db' : DB)
    (h : createSkill input db now = (Except.ok detail, db')) :
    detail.version.version_number = 1 ∧
    detail.version.skill_id = detail.skill.id ∧
    db'.skills = db.skills ++ [detail.skill] ∧
    db'.versions = db.versions ++ [detail.version] ∧
    ∃ newRows, db'.files = db.files ++ newRows ∧
      (∀ r ∈ newRows, r.version_id = detail.version.id) := by
  unfold createSkill at h
  simp only [] at h
  split at h
  · simp at h
  · split at h
    · simp at h
    · rw [Prod.mk.injEq, Except.ok.injEq] at h
      obtain ⟨hd, hdb⟩ := h
      subst hd
      subst hdb
      set sk := repoCreateSkill db input.name (createDescription input) true now now with hsk
      set vr := repoCreateVersion sk.2 sk.1.id 1 input.changelog now "ai" with hvr
      set rows := input.files.map (fun f =>
        FileRow.mk sk.1.id vr.1.id f.path f.content (f.is_executable.getD false)
          f.script_language f.run_instructions_for_ai now) with hrows
      obtain ⟨hfiles, hvers, hskills, hquad⟩ := repoCreateFiles_spec vr.2 rows
      refine ⟨rfl, rfl, hskills, hvers, (repoCreateFiles vr.2 rows).1, hfiles, ?_⟩
      intro r hr
      have h1 : (repoCreateFiles vr.2 rows).1.map (fun f => f.version_id) =
          rows.map (fun r => r.version_id) := by
        have := congrArg (List.map (fun t : String × String × String × String => t.2.1)) hquad
        simpa [List.map_map, Function.comp] using this
      have h2 : rows.map (fun r => r.version_id) = List.replicate rows.length vr.1.id := by
        rw [hrows, List.map_map, List.length_map]
        exact (List.map_congr_left (fun a _ => rfl)).trans (List.map_const' _ vr.1.id)
      have hmem : r.version_id ∈ (repoCreateFiles vr.2 rows).1.map (fun f => f.version_id) :=
        List.mem_map_of_mem _ hr
      rw [h1, h2] at hmem
      exact List.eq_of_mem_replicate hmem

theorem createSkill_runs_ok (input : CreateSkillInput) (db : DB) (now : Nat)
    (hv : (validateCreateSkill input).valid = true)
    (hf : findSkillByName db input.name = none) :
    ∃ detail db', createSkill input db now = (Except.ok detail, db') := by
  unfold createSkill
  rw [if_neg (by simp [hv]), hf]
  exact ⟨_, _, rfl⟩

theorem createSkill_conflict_run (input : CreateSkillInput) (db : DB) (now : Nat)
    (s : Skill) (hv : (validateCreateSkill input).valid = true)
    (hf : findSkillByName db input.name = some s) :
    createSkill input db now =
      (Except.error
        (conflict ("Skill with name " ++ quoted input.name ++ " already exists")), db) := by
  unfold createSkill
  rw [if_neg (by simp [hv]), hf]

/-- C1: a valid createSkill input against a store without the name
succeeds and creates exactly one new version, numbered 1, owned by the
new skill; against a store that already has a skill of that name, the
same call fails with a Conflict error and returns the store unchanged
(nothing is created). -/
theorem c1_create_skill_version_one (input : CreateSkillInput) (db : DB) (now : Nat)
    (hname : jsTrim input.name ≠ "")
    (hnamelen : input.name.length ≤ SKILL_NAME_MAX)
    (hdesc : ∀ d, input.description = some d → d.length ≤ DESCRIPTION_MAX)
    (hcl : ∀ c, input.changelog = some c → c.length ≤ CHANGELOG_MAX)
    (hne : input.files ≠ [])
    (hcount : input.files.length ≤ FILES_PER_VERSION_MAX)
    (hfiles : ∀ f ∈ input.files, f.path ≠ "" ∧ f.path.length ≤ FILE_PATH_MAX ∧
      f.content.utf8ByteSize ≤ FILE_CONTENT_MAX)
    (hdup : (input.files.map (fun f => f.path)).Nodup) :
    (findSkillByName db input.name = none →
      ∃ detail db', createSkill input db now = (Except.ok detail, db') ∧
        detail.version.version_number = 1 ∧
        detail.version.skill_id = detail.skill.id ∧
        db'.skills = db.skills ++ [detail.skill] ∧
        db'.versions = db.versions ++ [detail.version]) ∧
    (∀ s, findSkillByName db input.name = some s →
      createSkill input db now =
        (Except.error
          (conflict ("Skill with name " ++ quoted input.name ++ " already exists")), db) ∧
      (conflict ("Skill with name " ++ quoted input.name ++ " already exists")).code =
        ErrorCode.CONFLICT) := by
  have hvalid := validateCreateSkill_valid input hname hnamelen hdesc hcl hne hcount hfiles hdup
  have hv : (validateCreateSkill input).valid = true := by rw [hvalid]
  constructor
  · intro hfresh
    obtain ⟨detail, db', hok⟩ := createSkill_runs_ok input db now hv hfresh
    obtain ⟨h1, h2, h3, h4, _⟩ := createSkill_ok_spec input db now detail db' hok
    exact ⟨detail, db', hok, h1, h2, h3, h4⟩
  · intro s hs
    exact ⟨createSkill_conflict_run input db now s hv hs, rfl⟩

/-- C1 witness: creating demo in an empty store yields version 1, and a
second create of demo against the resulting store fails with Conflict
and leaves the store unchanged. -/
theorem c1_create_skill_witness :
    (∃ detail db', createSkill exCreateInput {} 1000 = (Except.ok detail, db') ∧
      detail.version.version_number = 1 ∧
      detail.version.skill_id = detail.skill.id ∧
      db'.skills = ({} : DB).skills ++ [detail.skill] ∧
      db'.versions = ({} : DB).versions ++ [detail.version]) ∧
    (createSkill exCreateInput exDb 5000 =
      (Except.error
        (conflict ("Skill with name " ++ quoted exCreateInput.name ++ " already exists")), exDb) ∧
      (conflict ("Skill with name " ++ quoted exCreateInput.name ++ " already exists")).code =
        ErrorCode.CONFLICT) := by
  constructor
  · exact (c1_create_skill_version_one exCreateInput {} 1000 (by decide) (by decide)
      (fun d hd => nomatch hd) (fun c hc => nomatch hc) (by decide) (by decide)
      (by decide) (by decide)).1 rfl
  · exact (c1_create_skill_version_one exCreateInput exDb 5000 (by decide) (by decide)
      (fun d hd => nomatch hd) (fun c hc => nomatch hc) (by decide) (by decide)
      (by decide) (by decide)).2 ⟨"uuid-0", "demo", none, true, 1000, 1000⟩ (by decide)

/-- C2: a successful updateSkill against a skill whose latest version is
N creates exactly one new version numbered N + 1 (appended to the
version table), and the file table afterwards is the old file table with
new rows appended, every new row bound to the new version id — so every
file row of versions 1..N is byte-for-byte unchanged. -/
theorem c2_update_preserves_history (input : UpdateSkillInput) (db : DB) (now : Nat)
    (detail : SkillDetail) (db' : DB)
    (h : updateSkill input db now = (Except.ok detail, db')) :
    ∃ skill, resolveSkill db input.skill_id = some skill ∧
      detail.version.version_number = getLatestVersionNumber db skill.id + 1 ∧
      db'.versions = db.versions ++ [detail.version] ∧
      ∃ newRows, db'.files = db.files ++ newRows ∧
        ∀ r ∈ newRows, r.version_id = detail.version.id := by
  obtain ⟨skill, hres, h1, _, h3, newRows, h4, h5, _⟩ :=
    updateSkill_ok_spec input db now detail db' h
  exact ⟨skill, hres, h1, h3, newRows, h4, h5⟩

/-- C2 witness: updating demo (latest version 1) yields version 2, the
old file rows survive unchanged, and the new rows carry the new version
id. -/
theorem c2_update_preserves_history_witness :
    ∃ skill, resolveSkill exDb exUpdInput.skill_id = some skill ∧
      c2Det.version.version_number = getLatestVersionNumber exDb skill.id + 1 ∧
      c2Db2.versions = exDb.versions ++ [c2Det.version] ∧
      ∃ newRows, c2Db2.files = exDb.files ++ newRows ∧
        ∀ r ∈ newRows, r.version_id = c2Det.version.id :=
  c2_update_preserves_history exUpdInput exDb 2000 c2Det c2Db2 rfl

/-- C4: the file map updateSkill writes is the in-order fold of the
changes over the base map: an add inserts (overwriting an existing
path), an update rewrites the content and optionally the executable,
language and instruction fields of an existing path and is a no-op when
the path is absent, and a delete removes the path; a successful
updateSkill materialises exactly the fold result (per path and content)
as the new version rows; and the concrete instance add x then delete y
over a base holding y and z yields the file set with paths z and x. -/
theorem c4_file_change_fold_semantics :
    (∀ (s v : String) (n : Nat) (m : List (String × SkillFile)) (c : FileChange)
        (q : String), c.type = ChangeType.add →
      mapGet (applyChange s v n m c) q =
        if q = c.path then
          some ⟨"", s, v, c.path, c.content.getD "", c.is_executable.getD false,
            c.script_language, c.run_instructions_for_ai, n⟩
        else mapGet m q) ∧
    (∀ (s v : String) (n : Nat) (m : List (String × SkillFile)) (c : FileChange)
        (q : String) (ex : SkillFile),
      c.type = ChangeType.update → mapGet m c.path = some ex →
      mapGet (applyChange s v n m c) q =
        if q = c.path then
          some { ex with
            content := c.content.getD ""
            is_executable := c.is_executable.getD ex.is_executable
            script_language := match c.script_language with
              | some l => some l
              | none => ex.script_language
            run_instructions_for_ai := match c.run_instructions_for_ai with
              | some r => some r
              | none => ex.run_instructions_for_ai
            created_at := n }
        else mapGet m q) ∧
    (∀ (s v : String) (n : Nat) (m : List (String × SkillFile)) (c : FileChange),
      c.type = ChangeType.update → mapGet m c.path = none →
      applyChange s v n m c = m) ∧
    (∀ (s v : String) (n : Nat) (m : List (String × SkillFile)) (c : FileChange)
        (q : String), c.type = ChangeType.delete →
      mapGet (applyChange s v n m c) q = if q = c.path then none else mapGet m q) ∧
    (∀ (input : UpdateSkillInput) (db : DB) (now : Nat) (detail : SkillDetail) (db' : DB),
      updateSkill input db now = (Except.ok detail, db') →
      ∃ skill newRows, resolveSkill db input.skill_id = some skill ∧
        db'.files = db.files ++ newRows ∧
        newRows.map (fun f => (f.path, f.content)) =
          (mapValues (applyChangesOf input skill.id detail.version.id now
            (mapFromFiles (currentFilesOf db skill.id)))).map
            (fun f => (f.path, f.content))) ∧
    ((updateSkill c4UpdInput c4Db 20).2.files.filter
        (fun f => f.version_id == "uuid-4")).map (fun f => f.path) = ["z", "x"] := by
  refine ⟨?_, ?_, ?_, ?_, ?_, by decide⟩
  · intro s v n m c q hc
    unfold applyChange
    rw [hc]
    exact mapGet_mapSet m c.path q _
  · intro s v n m c q ex hc hg
    unfold applyChange
    rw [hc, hg]
    exact mapGet_mapSet m c.path q _
  · intro s v n m c hc hg
    unfold applyChange
    rw [hc, hg]
  · intro s v n m c q hc
    unfold applyChange
    rw [hc]
    exact mapGet_mapDelete m c.path q
  · intro input db now detail db' h
    obtain ⟨skill, hres, _, _, _, newRows, h4, _, h6⟩ :=
      updateSkill_ok_spec input db now detail db' h
    exact ⟨skill, newRows, hres, h4, h6⟩

/-- C4 witness: deleting path y from the empty map leaves y absent, by
the delete clause of the fold semantics. -/
theorem c4_file_change_fold_witness :
    mapGet (applyChange "s" "v" 0 []
      { type := ChangeType.delete, path := "y" }) "y" = none := by
  have := c4_file_change_fold_semantics.2.2.2.1 "s" "v" 0 []
    { type := ChangeType.delete, path := "y" } "y" rfl
  simpa using this

/-- C3 counterexample: the store holds demo at version 1 with the single
file main.py; importing a folder named demo whose only text file is b.py
takes the fallback path (is_new = false, version 2), but the new version
file set is still main.py — not the imported set b.py — because the
update changes no-op on paths absent from the prior version. -/
theorem c3_counterexample :
    (createOrUpdateSkill "demo" c3ImportFiles exDb 4000).1 =
      Except.ok ⟨"demo", "success", some "uuid-0", some 2, none, some false⟩ ∧
    ((createOrUpdateSkill "demo" c3ImportFiles exDb 4000).2.files.filter
        (fun f => f.version_id == "uuid-3")).map (fun f => f.path) = ["main.py"] ∧
    c3ImportFiles.map (fun f => f.path) = ["b.py"] ∧
    (["main.py"] : List String) ≠ ["b.py"] := by
  refine ⟨rfl, by decide, rfl, by decide⟩

/-- C3 amended: when the import commit falls back to updateSkill because
creation found an existing name (reported with is_new = false), it
submits every imported file as an update change, and the resulting new
version file set has exactly the prior latest version path set — paths
present in both get the imported content, imported paths absent from the
prior version are dropped, and prior paths absent from the import are
retained; it is not a full-snapshot replace. -/
theorem c3_fallback_keeps_prior_paths (name : String) (files : List ImportFile)
    (db : DB) (now : Nat) (r : SkillImportResult) (db' : DB)
    (h : createOrUpdateSkill name files db now = (Except.ok r, db'))
    (hnew : r.is_new = some false) :
    ∃ skill newRows, resolveSkill db name = some skill ∧
      db'.files = db.files ++ newRows ∧
      (∀ p, p ∈ newRows.map (fun f => f.path) ↔
        p ∈ (currentFilesOf db skill.id).map (fun f => f.path)) := by
  unfold createOrUpdateSkill at h
  simp only [] at h
  split at h
  · rename_i detail db1 heq
    rw [Prod.mk.injEq, Except.ok.injEq] at h
    obtain ⟨hr, _⟩ := h
    rw [← hr] at hnew
    simp at hnew
  · rename_i err db1 heq
    split at h
    · split at h
      · rename_i detail db2 hequpd
        rw [Prod.mk.injEq, Except.ok.injEq] at h
        obtain ⟨hr, hdb⟩ := h
        have hdb1 : db1 = db := createSkill_error_db _ db now err db1 heq
        rw [hdb1] at hequpd
        obtain ⟨skill, hres, _, _, _, newRows, h4, _, h6⟩ :=
          updateSkill_ok_spec _ db now detail db2 hequpd
        refine ⟨skill, newRows, hres, ?_, ?_⟩
        · rw [← hdb]
          exact h4
        · intro p
          have hpaths : newRows.map (fun f => f.path) =
              (mapValues (applyChangesMap skill.id detail.version.id now
                (mapFromFiles (currentFilesOf db skill.id))
                (files.map (fun f =>
                  { type := ChangeType.update, path := f.path, content := some f.content,
                    is_executable := some f.is_executable,
                    script_language := f.script_language : FileChange })))).map
                (fun f => f.path) := by
            have := congrArg (List.map (fun t : String × String => t.1)) h6
            simpa [List.map_map, Function.comp, applyChangesOf] using this
          have hinv : PathInv (applyChangesMap skill.id detail.version.id now
              (mapFromFiles (currentFilesOf db skill.id))
              (files.map (fun f =>
                { type := ChangeType.update, path := f.path, content := some f.content,
                  is_executable := some f.is_executable,
                  script_language := f.script_language : FileChange }))) :=
            pathInv_applyChangesMap _ _ _ _ _
              (pathInv_mapFromFiles (currentFilesOf db skill.id))
          have hkeys : mapKeys (applyChangesMap skill.id detail.version.id now
              (mapFromFiles (currentFilesOf db skill.id))
              (files.map (fun f =>
                { type := ChangeType.update, path := f.path, content := some f.content,
                  is_executable := some f.is_executable,
                  script_language := f.script_language : FileChange }))) =
              mapKeys (mapFromFiles (currentFilesOf db skill.id)) := by
            apply mapKeys_applyChangesMap_updates
            intro c hc
            obtain ⟨f, _, hf⟩ := List.mem_map.mp hc
            rw [← hf]
          rw [hpaths, mapValues_path_eq_mapKeys _ hinv, hkeys]
          exact mem_mapKeys_mapFromFiles (currentFilesOf db skill.id) p
      · simp at h
    · simp at h

/-- C3 amended witness: the concrete fallback run against demo (prior
file main.py, imported file b.py) keeps exactly the prior path set. -/
theorem c3_fallback_keeps_prior_paths_witness :
    ∃ skill newRows, resolveSkill exDb "demo" = some skill ∧
      (createOrUpdateSkill "demo" c3ImportFiles exDb 4000).2.files =
        exDb.files ++ newRows ∧
      (∀ p, p ∈ newRows.map (fun f => f.path) ↔
        p ∈ (currentFilesOf exDb skill.id).map (fun f => f.path)) :=
  c3_fallback_keeps_prior_paths "demo" c3ImportFiles exDb 4000
    ⟨"demo", "success", some "uuid-0", some 2, none, some false⟩
    (createOrUpdateSkill "demo" c3ImportFiles exDb 4000).2 rfl rfl

/-- C9: isExecutable holds exactly when getScriptLanguage yields a
language; both are computed from the lowercased extension returned by
getExtension, and the extension table is exactly .py to python, .sh to
bash, .js to javascript and .ts to typescript. -/
theorem c9_executable_iff_script_language :
    (∀ p : String, isExecutable p = (getScriptLanguage p).isSome) ∧
    (∀ p : String, getScriptLanguage p = (getExtension p).bind EXECUTABLE_EXTENSIONS) ∧
    (∀ e : String,
      (EXECUTABLE_EXTENSIONS e).isSome =
        (e == ".py" || e == ".sh" || e == ".js" || e == ".ts")) ∧
    EXECUTABLE_EXTENSIONS ".py" = some "python" ∧
    EXECUTABLE_EXTENSIONS ".sh" = some "bash" ∧
    EXECUTABLE_EXTENSIONS ".js" = some "javascript" ∧
    EXECUTABLE_EXTENSIONS ".ts" = some "typescript" := by
  refine ⟨?_, ?_, ?_, rfl, rfl, rfl, rfl⟩
  · intro p
    unfold isExecutable getScriptLanguage
    cases getExtension p <;> simp
  · intro p
    unfold getScriptLanguage
    cases getExtension p <;> simp
  · intro e
    unfold EXECUTABLE_EXTENSIONS
    split <;> simp_all

/-- C10: zero-length content is classified as text by isBinary, so an
empty file in an uploaded archive lands in its folder as a text entry
with empty content, is counted in the preview file count (which is what
the 50-file bound is checked against), and is converted into an engine
file input with empty content rather than skipped. -/
theorem c10_empty_file_is_text :
    isBinary [] = false ∧
    extractSkillFolders
        ⟨[⟨"skill/SKILL.md", [104, 105], false⟩, ⟨"skill/empty.txt", [], false⟩], 2⟩ =
      [⟨"skill", [⟨"SKILL.md", "hi", false⟩, ⟨"empty.txt", "", false⟩]⟩] ∧
    buildPreview ⟨"skill", [⟨"SKILL.md", "hi", false⟩, ⟨"empty.txt", "", false⟩]⟩ =
      ⟨"skill", true, 2, [], some "hi"⟩ ∧
    importFilesOf ⟨"skill", [⟨"SKILL.md", "hi", false⟩, ⟨"empty.txt", "", false⟩]⟩ =
      [⟨"SKILL.md", "hi", false, none⟩, ⟨"empty.txt", "", false, none⟩] := by
  refine ⟨rfl, ?_, ?_, ?_⟩ <;> decide

/-- C7: the code enforces a 1000-character description bound, not 1024:
a 1024-character description (all other fields valid) is rejected by
validateCreateSkill and validateUpdateSkill, while 1000 characters pass. -/
theorem c7_description_bound_is_1000 :
    (validateCreateSkill
        { name := "s"
          description := some (String.mk (List.replicate 1024 'a'))
          files := [{ path := "p", content := "c" }] }).valid = false ∧
    (validateUpdateSkill
        { skill_id := "s"
          description := some (String.mk (List.replicate 1024 'a')) } 0).valid = false ∧
    (validateCreateSkill
        { name := "s"
          description := some (String.mk (List.replicate 1000 'a'))
          files := [{ path := "p", content := "c" }] }).valid = true ∧
    DESCRIPTION_MAX = 1000 := by
  refine ⟨?_, ?_, ?_, rfl⟩ <;> decide

/-- C5 counterexample: committing against a session id that is not in the
store makes processSelected fail with a VALIDATION_ERROR, not a NotFound
error, refuting the claimed error kind at this concrete input. -/
theorem c5_counterexample :
    (processSelected [] {} 0 "missing" ["a"]).1 =
      Except.error ⟨ErrorCode.VALIDATION_ERROR, "Session not found or expired", 400⟩ ∧
    ErrorCode.VALIDATION_ERROR ≠ ErrorCode.NOT_FOUND := by
  exact ⟨rfl, by decide⟩

/-- C5 amended: when the session is absent or expired, processSelected
fails with the VALIDATION_ERROR AppError carrying the message Session
not found or expired and leaves the database and the session table
unchanged; the HTTP upload process route translates exactly this failure
into a NotFound error, likewise leaving all state unchanged. -/
theorem c5_session_miss_validation_error (tbl : List SessionRow) (db : DB)
    (now : Nat) (sid : String) (sel : List String)
    (h : sessionGet tbl sid now = none) :
    processSelected tbl db now sid sel =
      (Except.error (validationError "Session not found or expired"), db, tbl) ∧
    (validationError "Session not found or expired").code = ErrorCode.VALIDATION_ERROR ∧
    uploadProcessRoute tbl db now sid sel =
      (Except.error (notFound "Session"), db, tbl) ∧
    (notFound "Session").code = ErrorCode.NOT_FOUND := by
  have hp : processSelected tbl db now sid sel =
      (Except.error (validationError "Session not found or expired"), db, tbl) := by
    unfold processSelected
    rw [h]
  refine ⟨hp, rfl, ?_, rfl⟩
  have hs : strContains (validationError "Session not found or expired").message
      "Session not found" = true := by decide
  unfold uploadProcessRoute
  rw [hp]
  simp [hs]

/-- C5 witness: the amended theorem applied to the empty session store. -/
theorem c5_session_miss_witness :
    processSelected [] {} 0 "missing" ["a"] =
      (Except.error (validationError "Session not found or expired"), {}, []) :=
  (c5_session_miss_validation_error [] {} 0 "missing" ["a"] rfl).1

/-- C6 counterexample: with 101 active skills in the store, a listSkills
call that requests limit 101 through the service (as the MCP tool path
does, passing the argument through uncapped) returns 101 records,
refuting the claim that every path caps the limit at 100. -/
theorem c6_counterexample :
    (serviceListSkills { limit := some 101 } bigDb).numRecords = 101 ∧
    (mcpSkillList bigDb none (some 101) none none).numRecords = 101 ∧
    ¬ (101 ≤ 100) := by
  refine ⟨?_, ?_, by decide⟩ <;> decide

/-- C6 amended: the REST GET /skills handler caps the limit at 100 before
reaching the engine, so that path returns at most 100 records; the
service itself passes the requested limit through to the repository
unchanged, so any call returns at most the requested limit (default 50
when absent), with no 100 cap on the service or MCP path. -/
theorem c6_rest_cap_100 :
    (∀ (db : DB) (a : Bool) (l o : Nat) (q : Option String) (d : Bool),
      (restListSkills db a l o q d).numRecords ≤ 100) ∧
    (∀ (opts : ExtendedListSkillsOptions) (db : DB),
      (serviceListSkills opts db).numRecords ≤ opts.limit.getD 50) := by
  constructor
  · intro db a l o q d
    unfold restListSkills serviceListSkills repoListSkills
    have hbase : ∀ (rs : List SkillWithVersion), (rs.take (min l 100)).length ≤ 100 := by
      intro rs
      calc (rs.take (min l 100)).length ≤ min l 100 := by
            rw [List.length_take]; exact min_le_left _ _
        _ ≤ 100 := min_le_right _ _
    split <;> simp only [ListResult.numRecords, List.length_map] <;> apply hbase
  · intro opts db
    unfold serviceListSkills repoListSkills
    have hbase : ∀ (rs : List SkillWithVersion), (rs.take (opts.limit.getD 50)).length ≤ opts.limit.getD 50 := by
      intro rs
      rw [List.length_take]; exact min_le_left _ _
    split <;> simp only [ListResult.numRecords, List.length_map] <;> apply hbase

/-- C8: the session store get returns a payload exactly when a row with
the requested id exists whose expiry strictly exceeds the read time; when
every row with that id has expired, the read is indistinguishable from a
read against an empty store (an id never created). -/
theorem c8_session_get_iff (tbl : List SessionRow) (sid : String) (now : Nat) :
    ((sessionGet tbl sid now).isSome ↔ ∃ r ∈ tbl, r.id = sid ∧ now < r.expires_at) ∧
    ((∀ r ∈ tbl, r.id = sid → r.expires_at ≤ now) →
      sessionGet tbl sid now = sessionGet [] sid now) := by
  constructor
  · unfold sessionGet
    cases h : tbl.find? (fun r => r.id == sid && decide (now < r.expires_at)) with
    | none =>
      refine iff_of_false (by simp) ?_
      rintro ⟨r, hr, h1, h2⟩
      have hnone := List.find?_eq_none.mp h r hr
      simp [h1, h2] at hnone
    | some r =>
      refine iff_of_true (by simp) ?_
      have hmem := List.mem_of_find?_eq_some h
      have hp := List.find?_some h
      simp only [Bool.and_eq_true, beq_iff_eq, decide_eq_true_eq] at hp
      exact ⟨r, hmem, hp.1, hp.2⟩
  · intro hall
    unfold sessionGet
    cases h : tbl.find? (fun r => r.id == sid && decide (now < r.expires_at)) with
    | none => simp
    | some r =>
      exfalso
      have hmem := List.mem_of_find?_eq_some h
      have hp := List.find?_some h
      simp only [Bool.and_eq_true, beq_iff_eq, decide_eq_true_eq] at hp
      exact absurd (hall r hmem hp.1) (by omega)

/-- C8 witness: the single stored session expires at time 10, so a read at
time 10 equals a read against the empty store. -/
theorem c8_session_get_witness :
    sessionGet exSessionTbl "sess" 10 = sessionGet [] "sess" 10 :=
  (c8_session_get_iff exSessionTbl "sess" 10).2 (by decide)

end SkillMgr
